import Mathlib

/-!
Shallow embedding of the vote ledger of the forum-hub backend
(`src/index.js`): the two vote endpoints `POST /post-upvote/:id` and
`POST /post-downvote/:id`, the popularity ordering endpoint
`GET /all-posts/sort-by-popularity`, and the Mongo update-operator
semantics they rely on ($push, $pull, positional $set, $inc).
-/

namespace ForumHub

/-- The two vote kinds stored in a vote record's `voteType` field
(the strings "up" / "down" in the document). -/
inductive VoteType where
  | up
  | down
deriving DecidableEq, Repr

/-- The opposite vote kind. -/
def VoteType.other : VoteType → VoteType
  | .up => .down
  | .down => .up

/-- One element of a post's `votes` array.  `userEmail` is `Option String`:
`none` models the JavaScript `undefined` request value, which the Mongo
driver serialises as `null` in the stored document. -/
structure VoteRecord where
  userEmail : Option String
  voteType : VoteType
deriving DecidableEq, Repr

/-- JavaScript strict equality `a === b` restricted to the values that can
occur in the `userEmail` slot: two strings compare by value; `null` and
`undefined` (both rendered `none` here) are never `===` to each other or to
a string.  This matches `vote.userEmail === userEmail` in both handlers. -/
def jsEq : Option String → Option String → Bool
  | some a, some b => a == b
  | _, _ => false

/-- A post document, restricted to the fields the vote ledger touches.
`votes = none` models a document with no `votes` field at all (the
handlers guard with `post.votes?.find`).  `extra` stands for all other
fields of the document (author, body, tags, ...), which the vote updates
never touch. -/
structure Post where
  votes : Option (List VoteRecord)
  upVotes : Int
  downVotes : Int
  extra : List (String × Int)
deriving DecidableEq, Repr

/-- `post.votes?.find((vote) => vote.userEmail === userEmail)`. -/
def findVote (votes : Option (List VoteRecord)) (e : Option String) : Option VoteRecord :=
  votes.bind (fun l => l.find? (fun v => jsEq v.userEmail e))

/-- The per-user vote state `S` of the spec: `none`, or the `voteType` of
the record the handler's `find` locates for that user. -/
def userState (p : Post) (e : String) : Option VoteType :=
  (findVote p.votes (some e)).map (fun v => v.voteType)

/-- Mongo positional update `$set: { "votes.$.voteType": t }` under the
filter `"votes.userEmail": e`: rewrite the `voteType` of the first array
element whose `userEmail` matches `e`, leaving everything else in place. -/
def setFirstVoteType : List VoteRecord → Option String → VoteType → List VoteRecord
  | [], _, _ => []
  | v :: rest, e, t =>
    if jsEq v.userEmail e then { v with voteType := t } :: rest
    else v :: setFirstVoteType rest e t

/-- `$inc` on the counter selected by `t` (`upVotes` for up, `downVotes`
for down). -/
def incCounter (t : VoteType) (d : Int) (p : Post) : Post :=
  match t with
  | .up => { p with upVotes := p.upVotes + d }
  | .down => { p with downVotes := p.downVotes + d }

/-- The write phase of the remove branch: `$pull: { votes: { userEmail } }`
together with `$inc` of `-1` on the counter of `t`.  `$pull` deletes every
array element matching the query; on an absent field it is a no-op. -/
def removeVoteWrite (t : VoteType) (e : Option String) (p : Post) : Post :=
  incCounter t (-1)
    { p with votes := p.votes.map (fun l => l.filter (fun v => !jsEq v.userEmail e)) }

/-- The write phase of the switch branch.  The `updateOne` filter is
`{ _id, "votes.userEmail": e }`, so the whole update (positional `$set`
and both `$inc`s) applies only when a record for `e` exists in the
document at write time; otherwise it matches nothing and is a no-op. -/
def switchVoteWrite (t : VoteType) (e : Option String) (p : Post) : Post :=
  if (p.votes.getD []).any (fun v => jsEq v.userEmail e) then
    incCounter t.other (-1)
      (incCounter t 1
        { p with votes := some (setFirstVoteType (p.votes.getD []) e t) })
  else p

/-- The write phase of the add branch: `$push: { votes: { userEmail,
voteType: t } }` with `$inc` of `+1` on the counter of `t`.  `$push` on an
absent field creates a one-element array. -/
def addVoteWrite (t : VoteType) (e : Option String) (p : Post) : Post :=
  incCounter t 1 { p with votes := some (p.votes.getD [] ++ [⟨e, t⟩]) }

/-- The body of `POST /post-upvote/:id` once the post has been found:
branch on the user's existing vote, issue the matching update, and return
the message sent in the response. -/
def castUpvote (p : Post) (e : Option String) : Post × String :=
  match findVote p.votes e with
  | some v =>
    if v.voteType = VoteType.up then (removeVoteWrite .up e p, "Upvote removed")
    else (switchVoteWrite .up e p, "Vote switched to upvote")
  | none => (addVoteWrite .up e p, "Upvote added")

/-- The body of `POST /post-downvote/:id` once the post has been found. -/
def castDownvote (p : Post) (e : Option String) : Post × String :=
  match findVote p.votes e with
  | some v =>
    if v.voteType = VoteType.down then (removeVoteWrite .down e p, "Downvote removed")
    else (switchVoteWrite .down e p, "Vote switched to downvote")
  | none => (addVoteWrite .down e p, "Downvote added")

/-- `castVote` of the spec: the operation both endpoints invoke, selected
by the requested vote kind. -/
def castVotePost (p : Post) (e : Option String) : VoteType → Post × String
  | .up => castUpvote p e
  | .down => castDownvote p e

/-- A JSON value appearing in a response body sent by these handlers. -/
inductive JVal where
  | s (v : String)
  | i (v : Int)
deriving DecidableEq, Repr

/-- An HTTP response: status code and JSON object body. -/
structure HttpResp where
  status : Nat
  body : List (String × JVal)
deriving DecidableEq, Repr

/-- The posts collection: documents keyed by their `_id` hex string. -/
abbrev Store := List (String × Post)

/-- Hexadecimal digit test used by the ObjectId constructor. -/
def isHexChar (c : Char) : Bool :=
  c.isDigit || ("abcdefABCDEF".toList.contains c)

/-- `new ObjectId(id)` succeeds on a 24-character hex string and throws
otherwise; a throw lands in the handler's `catch`, which answers 500. -/
def isValidObjectId (s : String) : Bool :=
  s.length == 24 && s.toList.all isHexChar

/-- `postCollection.findOne({ _id: new ObjectId(id) })`. -/
def findOne (s : Store) (id : String) : Option Post :=
  (s.find? (fun kv => kv.1 == id)).map (fun kv => kv.2)

/-- Replace the first document with the given id (the effect of the
handlers' `updateOne` calls, whose per-document outcome is computed by the
cast functions above). -/
def setPost : Store → String → Post → Store
  | [], _, _ => []
  | kv :: rest, id, p =>
    if kv.1 == id then (kv.1, p) :: rest else kv :: setPost rest id p

/-- `POST /post-upvote/:id`: validate the id (an invalid ObjectId throws
into the catch block, giving 500 "Internal server error"), look the post
up (missing gives 404 "Post not found"), otherwise run the vote logic and
answer 200 with `{ message }`. -/
def postUpvoteRoute (s : Store) (idRaw : String) (e : Option String) : Store × HttpResp :=
  if isValidObjectId idRaw then
    match findOne s idRaw with
    | none => (s, ⟨404, [("message", JVal.s "Post not found")]⟩)
    | some p =>
      let r := castUpvote p e
      (setPost s idRaw r.1, ⟨200, [("message", JVal.s r.2)]⟩)
  else (s, ⟨500, [("message", JVal.s "Internal server error")]⟩)

/-- `POST /post-downvote/:id`, same shape as the upvote route. -/
def postDownvoteRoute (s : Store) (idRaw : String) (e : Option String) : Store × HttpResp :=
  if isValidObjectId idRaw then
    match findOne s idRaw with
    | none => (s, ⟨404, [("message", JVal.s "Post not found")]⟩)
    | some p =>
      let r := castDownvote p e
      (setPost s idRaw r.1, ⟨200, [("message", JVal.s r.2)]⟩)
  else (s, ⟨500, [("message", JVal.s "Internal server error")]⟩)

/-- The route invoked by `castVote(postId, userEmail, t)`. -/
def castVoteRoute (t : VoteType) (s : Store) (idRaw : String) (e : Option String) :
    Store × HttpResp :=
  match t with
  | .up => postUpvoteRoute s idRaw e
  | .down => postDownvoteRoute s idRaw e

/-- A post as returned by the popularity aggregation: the document plus
the pipeline-computed `votesCount` field. -/
structure RankedPost where
  post : Post
  votesCount : Int
deriving DecidableEq, Repr

/-- The `$addFields` stage: `votesCount: { $subtract: ["$upVotes",
"$downVotes"] }`, computed per document in the pipeline output only. -/
def addVotesCount (p : Post) : RankedPost :=
  ⟨p, p.upVotes - p.downVotes⟩

/-- `GET /all-posts/sort-by-popularity`: run the aggregation ($addFields
then `$sort: { votesCount: -1 }`) and send the result; the pipeline has no
output stage, so the store is returned unchanged. -/
def sortByPopularityRoute (s : Store) : Store × List RankedPost :=
  (s, (s.map (fun kv => addVotesCount kv.2)).mergeSort
        (fun a b => decide (b.votesCount ≤ a.votesCount)))

/-- Modelled from the spec (section 4.1 table): the new per-user state
after a `castVote` with current state `s` and requested kind `t`. -/
def specNewState (s : Option VoteType) (t : VoteType) : Option VoteType :=
  if s = some t then none else some t

/-- Modelled from the spec (section 4.1 table): the delta applied to
`upVotes`. -/
def specDeltaUp : Option VoteType → VoteType → Int
  | none, .up => 1
  | none, .down => 0
  | some .up, .up => -1
  | some .up, .down => -1
  | some .down, .down => 0
  | some .down, .up => 1

/-- Modelled from the spec (section 4.1 table): the delta applied to
`downVotes`. -/
def specDeltaDown : Option VoteType → VoteType → Int
  | none, .up => 0
  | none, .down => 1
  | some .up, .up => 0
  | some .up, .down => 1
  | some .down, .down => -1
  | some .down, .up => -1

/-- The "added" message of each endpoint. -/
def addedMsg : VoteType → String
  | .up => "Upvote added"
  | .down => "Downvote added"

/-- The "removed" message of each endpoint. -/
def removedMsg : VoteType → String
  | .up => "Upvote removed"
  | .down => "Downvote removed"

/-- The "switched" message of each endpoint. -/
def switchedMsg : VoteType → String
  | .up => "Vote switched to upvote"
  | .down => "Vote switched to downvote"

/-- Modelled from the spec (sections 4.1 and 8): the human-readable status
describing the transition taken from state `s` on request `t`. -/
def specMessage (s : Option VoteType) (t : VoteType) : String :=
  if s = some t then removedMsg t
  else if s = none then addedMsg t
  else switchedMsg t

/-- Number of records of kind `t` in a post's votes array (0 when the
field is absent). -/
def countType (p : Post) (t : VoteType) : Nat :=
  (p.votes.getD []).countP (fun v => v.voteType == t)

/-- Number of live vote records belonging to the user with email `e`. -/
def userRecCount (p : Post) (e : String) : Nat :=
  (p.votes.getD []).countP (fun v => jsEq v.userEmail (some e))

/-- Run a sequence of completed `castVote` calls against one post,
ignoring the response messages. -/
def runVotes (p : Post) : List (Option String × VoteType) → Post
  | [] => p
  | c :: rest => runVotes (castVotePost p c.1 c.2).1 rest

/-! ### Helper lemmas about `jsEq`, `find?`, `filter`, `setFirstVoteType`
and `countP` -/

theorem bool_eq_false {b : Bool} (h : ¬ b = true) : b = false := by
  cases b
  · rfl
  · exact absurd rfl h

theorem jsEq_true_iff {a b : Option String} :
    jsEq a b = true ↔ ∃ s, a = some s ∧ b = some s := by
  cases a with
  | none => simp [jsEq]
  | some x =>
    cases b with
    | none => simp [jsEq]
    | some y =>
      simp only [jsEq, beq_iff_eq]
      constructor
      · intro h; exact ⟨y, by simp [h], rfl⟩
      · rintro ⟨s, hx, hy⟩; simp_all

theorem jsEq_self (e : String) : jsEq (some e) (some e) = true := by
  simp [jsEq]

theorem jsEq_cross {w : Option String} {e1 : Option String} {e2 : String}
    (hne : e1 ≠ some e2) (h : jsEq w e1 = true) : jsEq w (some e2) = false := by
  obtain ⟨s, hw, he⟩ := jsEq_true_iff.mp h
  subst hw he
  simp only [jsEq, beq_eq_false_iff_ne, ne_eq]
  intro hc; exact hne (by rw [hc])

theorem find?_filter_keep {α : Type} (l : List α) (p q : α → Bool)
    (h : ∀ a, q a = true → p a = true) :
    (l.filter p).find? q = l.find? q := by
  induction l with
  | nil => rfl
  | cons a l ih =>
    by_cases hq : q a = true
    · simp [List.filter_cons, h a hq, List.find?, hq]
    · by_cases hp : p a = true <;>
        simp [List.filter_cons, hp, List.find?, bool_eq_false hq, ih]

theorem find?_append_single_neg {α : Type} (l : List α) (q : α → Bool) (a : α)
    (ha : q a = false) :
    (l ++ [a]).find? q = l.find? q := by
  induction l with
  | nil => simp [List.find?, ha]
  | cons b l ih =>
    by_cases hb : q b = true
    · simp [List.find?, hb]
    · simp only [List.cons_append, List.find?, bool_eq_false hb]
      exact ih

theorem find?_append_single_pos {α : Type} (l : List α) (q : α → Bool) (a : α)
    (h : l.find? q = none) (ha : q a = true) :
    (l ++ [a]).find? q = some a := by
  induction l with
  | nil => simp [List.find?, ha]
  | cons b l ih =>
    rw [List.find?_eq_none] at h
    have hb : q b = false := bool_eq_false (h b (by simp))
    simp only [List.cons_append, List.find?, hb]
    exact ih (List.find?_eq_none.mpr (fun x hx => h x (by simp [hx])))

theorem find?_setFirst_same (l : List VoteRecord) (e : Option String) (t : VoteType)
    (v : VoteRecord) (h : l.find? (fun w => jsEq w.userEmail e) = some v) :
    (setFirstVoteType l e t).find? (fun w => jsEq w.userEmail e)
      = some { v with voteType := t } := by
  induction l with
  | nil => simp [List.find?] at h
  | cons a l ih =>
    by_cases ha : jsEq a.userEmail e = true
    · simp only [List.find?, ha] at h
      injection h with h
      subst h
      simp [setFirstVoteType, ha, List.find?]
    · simp only [List.find?, bool_eq_false ha] at h
      simp only [setFirstVoteType, if_neg ha, List.find?, bool_eq_false ha]
      exact ih h

theorem find?_setFirst_other (l : List VoteRecord) (e1 : Option String) (e2 : String)
    (t : VoteType) (hne : e1 ≠ some e2) :
    (setFirstVoteType l e1 t).find? (fun w => jsEq w.userEmail (some e2))
      = l.find? (fun w => jsEq w.userEmail (some e2)) := by
  induction l with
  | nil => rfl
  | cons a l ih =>
    by_cases ha : jsEq a.userEmail e1 = true
    · have ha2 : jsEq a.userEmail (some e2) = false := jsEq_cross hne ha
      simp [setFirstVoteType, ha, List.find?, ha2]
    · by_cases ha2 : jsEq a.userEmail (some e2) = true
      · simp [setFirstVoteType, ha, List.find?, ha2]
      · simp only [setFirstVoteType, if_neg ha, List.find?, bool_eq_false ha2, ih]

theorem countP_setFirst (l : List VoteRecord) (e : Option String) (t : VoteType)
    (v : VoteRecord) (p : VoteRecord → Bool)
    (h : l.find? (fun w => jsEq w.userEmail e) = some v) :
    (setFirstVoteType l e t).countP p + (if p v then 1 else 0)
      = l.countP p + (if p { v with voteType := t } then 1 else 0) := by
  induction l with
  | nil => simp [List.find?] at h
  | cons a l ih =>
    by_cases ha : jsEq a.userEmail e = true
    · simp only [List.find?, ha] at h
      injection h with h
      subst h
      simp only [setFirstVoteType, if_pos ha, List.countP_cons]
      omega
    · simp only [List.find?, bool_eq_false ha] at h
      simp only [setFirstVoteType, if_neg ha, List.countP_cons]
      have := ih h
      omega

theorem countP_split {α : Type} (l : List α) (p q : α → Bool) :
    l.countP p = (l.filter q).countP p + (l.filter (fun a => !q a)).countP p := by
  induction l with
  | nil => rfl
  | cons a l ih =>
    by_cases hq : q a = true
    · rw [List.filter_cons_of_pos hq, List.filter_cons_of_neg (by simp [hq]),
        List.countP_cons, List.countP_cons]
      omega
    · rw [List.filter_cons_of_neg hq, List.filter_cons_of_pos (by simp [bool_eq_false hq]),
        List.countP_cons, List.countP_cons]
      omega

theorem filter_eq_single {α : Type} (l : List α) (q : α → Bool) (v : α)
    (hf : l.find? q = some v) (hc : l.countP q ≤ 1) : l.filter q = [v] := by
  induction l with
  | nil => simp [List.find?] at hf
  | cons a l ih =>
    by_cases ha : q a = true
    · simp only [List.find?, ha] at hf
      injection hf with hf
      subst hf
      rw [List.countP_cons, if_pos ha] at hc
      have h0 : l.countP q = 0 := by omega
      rw [List.filter_cons, if_pos ha]
      rw [List.countP_eq_length_filter] at h0
      rw [List.length_eq_zero.mp h0]
    · simp only [List.find?, bool_eq_false ha] at hf
      rw [List.countP_cons, if_neg ha] at hc
      rw [List.filter_cons, if_neg ha]
      exact ih hf (by omega)

theorem any_iff_findVote (votes : Option (List VoteRecord)) (e : Option String) :
    ((votes.getD []).any (fun v => jsEq v.userEmail e) = true)
      ↔ (findVote votes e).isSome = true := by
  cases votes with
  | none => simp [findVote]
  | some l =>
    simp only [Option.getD_some, findVote, Option.some_bind, List.any_eq_true,
      Option.isSome_iff_exists]
    constructor
    · rintro ⟨v, hv, hj⟩
      rcases hfl : l.find? (fun w => jsEq w.userEmail e) with _ | w
      · rw [List.find?_eq_none] at hfl
        exact absurd hj (hfl v hv)
      · exact ⟨w, hfl⟩
    · rintro ⟨w, hw⟩
      exact ⟨w, List.mem_of_find?_eq_some hw,
        List.find?_some (p := fun v : VoteRecord => jsEq v.userEmail e) hw⟩

/-! ### Behaviour of the three write kinds -/

theorem incCounter_votes (t : VoteType) (d : Int) (p : Post) :
    (incCounter t d p).votes = p.votes := by
  cases t <;> rfl

theorem incCounter_extra (t : VoteType) (d : Int) (p : Post) :
    (incCounter t d p).extra = p.extra := by
  cases t <;> rfl

theorem incCounter_upVotes (t : VoteType) (d : Int) (p : Post) :
    (incCounter t d p).upVotes = p.upVotes + (if t = VoteType.up then d else 0) := by
  cases t <;> simp [incCounter]

theorem incCounter_downVotes (t : VoteType) (d : Int) (p : Post) :
    (incCounter t d p).downVotes = p.downVotes + (if t = VoteType.down then d else 0) := by
  cases t <;> simp [incCounter]

theorem removeVoteWrite_votes (t : VoteType) (e : Option String) (p : Post) :
    (removeVoteWrite t e p).votes
      = p.votes.map (fun l => l.filter (fun v => !jsEq v.userEmail e)) := by
  rw [removeVoteWrite, incCounter_votes]

theorem removeVoteWrite_upVotes (t : VoteType) (e : Option String) (p : Post) :
    (removeVoteWrite t e p).upVotes = p.upVotes + (if t = VoteType.up then -1 else 0) := by
  rw [removeVoteWrite, incCounter_upVotes]

theorem removeVoteWrite_downVotes (t : VoteType) (e : Option String) (p : Post) :
    (removeVoteWrite t e p).downVotes = p.downVotes + (if t = VoteType.down then -1 else 0) := by
  rw [removeVoteWrite, incCounter_downVotes]

theorem addVoteWrite_votes (t : VoteType) (e : Option String) (p : Post) :
    (addVoteWrite t e p).votes = some (p.votes.getD [] ++ [⟨e, t⟩]) := by
  rw [addVoteWrite, incCounter_votes]

theorem addVoteWrite_upVotes (t : VoteType) (e : Option String) (p : Post) :
    (addVoteWrite t e p).upVotes = p.upVotes + (if t = VoteType.up then 1 else 0) := by
  rw [addVoteWrite, incCounter_upVotes]

theorem addVoteWrite_downVotes (t : VoteType) (e : Option String) (p : Post) :
    (addVoteWrite t e p).downVotes = p.downVotes + (if t = VoteType.down then 1 else 0) := by
  rw [addVoteWrite, incCounter_downVotes]

theorem switchVoteWrite_votes (t : VoteType) (e : Option String) (p : Post)
    (hg : (findVote p.votes e).isSome = true) :
    (switchVoteWrite t e p).votes
      = some (setFirstVoteType (p.votes.getD []) e t) := by
  rw [switchVoteWrite, if_pos ((any_iff_findVote p.votes e).mpr hg)]
  rw [incCounter_votes, incCounter_votes]

theorem switchVoteWrite_upVotes (t : VoteType) (e : Option String) (p : Post)
    (hg : (findVote p.votes e).isSome = true) :
    (switchVoteWrite t e p).upVotes
      = p.upVotes + (if t = VoteType.up then 1 else -1) := by
  rw [switchVoteWrite, if_pos ((any_iff_findVote p.votes e).mpr hg)]
  rw [incCounter_upVotes, incCounter_upVotes]
  cases t <;> simp [VoteType.other]

theorem switchVoteWrite_downVotes (t : VoteType) (e : Option String) (p : Post)
    (hg : (findVote p.votes e).isSome = true) :
    (switchVoteWrite t e p).downVotes
      = p.downVotes + (if t = VoteType.down then 1 else -1) := by
  rw [switchVoteWrite, if_pos ((any_iff_findVote p.votes e).mpr hg)]
  rw [incCounter_downVotes, incCounter_downVotes]
  cases t <;> simp [VoteType.other]

theorem switchVoteWrite_extra (t : VoteType) (e : Option String) (p : Post) :
    (switchVoteWrite t e p).extra = p.extra := by
  rw [switchVoteWrite]
  by_cases hg : (p.votes.getD []).any (fun v => jsEq v.userEmail e) = true
  · rw [if_pos hg, incCounter_extra, incCounter_extra]
  · rw [if_neg hg]

/-- Both endpoint bodies are the same function of the requested kind `t`:
look for the user's record, then remove / switch / add accordingly. -/
theorem castVotePost_eq (p : Post) (e : Option String) (t : VoteType) :
    castVotePost p e t =
      match findVote p.votes e with
      | some v =>
        if v.voteType = t then (removeVoteWrite t e p, removedMsg t)
        else (switchVoteWrite t e p, switchedMsg t)
      | none => (addVoteWrite t e p, addedMsg t) := by
  cases t <;> rfl

/-! ### Per-user state after each write -/

theorem userState_removeVoteWrite (p : Post) (e : String) (t : VoteType) :
    userState (removeVoteWrite t (some e) p) e = none := by
  rw [userState, findVote, removeVoteWrite_votes]
  cases p.votes with
  | none => rfl
  | some l =>
    simp only [Option.map_some', Option.some_bind, Option.map_eq_none']
    rw [List.find?_eq_none]
    intro x hx
    rw [List.mem_filter] at hx
    simp only [Bool.not_eq_true'] at hx
    simp [hx.2]

theorem userState_addVoteWrite (p : Post) (e : String) (t : VoteType)
    (h : findVote p.votes (some e) = none) :
    userState (addVoteWrite t (some e) p) e = some t := by
  rw [userState, findVote, addVoteWrite_votes]
  simp only [Option.some_bind]
  have hl : (p.votes.getD []).find? (fun v => jsEq v.userEmail (some e)) = none := by
    cases hv : p.votes with
    | none => rfl
    | some l =>
      rw [findVote, hv] at h
      simpa using h
  rw [find?_append_single_pos _ _ _ hl (jsEq_self e)]
  rfl

theorem userState_switchVoteWrite (p : Post) (e : String) (t : VoteType)
    (v : VoteRecord) (h : findVote p.votes (some e) = some v) :
    userState (switchVoteWrite t (some e) p) e = some t := by
  have hs : (findVote p.votes (some e)).isSome = true := by rw [h]; rfl
  rw [userState, findVote, switchVoteWrite_votes _ _ _ hs]
  simp only [Option.some_bind]
  have hl : (p.votes.getD []).find? (fun w => jsEq w.userEmail (some e)) = some v := by
    cases hv : p.votes with
    | none => rw [findVote, hv] at h; simp at h
    | some l => rw [findVote, hv] at h; simpa using h
  rw [find?_setFirst_same _ _ t _ hl]
  rfl

/-! ### The three branches of `castVote` -/

theorem castVotePost_add (p : Post) (e : Option String) (t : VoteType)
    (hf : findVote p.votes e = none) :
    castVotePost p e t = (addVoteWrite t e p, addedMsg t) := by
  rw [castVotePost_eq, hf]

theorem castVotePost_remove (p : Post) (e : Option String) (t : VoteType)
    (v : VoteRecord) (hf : findVote p.votes e = some v) (hv : v.voteType = t) :
    castVotePost p e t = (removeVoteWrite t e p, removedMsg t) := by
  rw [castVotePost_eq, hf]
  simp [hv]

theorem castVotePost_switch (p : Post) (e : Option String) (t : VoteType)
    (v : VoteRecord) (hf : findVote p.votes e = some v) (hv : ¬ v.voteType = t) :
    castVotePost p e t = (switchVoteWrite t e p, switchedMsg t) := by
  rw [castVotePost_eq, hf]
  simp [hv]

theorem userState_of_find (p : Post) (e : String) (v : VoteRecord)
    (hf : findVote p.votes (some e) = some v) : userState p e = some v.voteType := by
  rw [userState, hf]
  rfl

theorem userState_of_find_none (p : Post) (e : String)
    (hf : findVote p.votes (some e) = none) : userState p e = none := by
  rw [userState, hf]
  rfl

/-- Claim C1: for every post, every per-user state S in none/up/down and
every requested kind, `castVote` realises exactly the six-row transition
table of spec section 4.1: the new per-user state is `specNewState S t`
and the counters move by `specDeltaUp S t` and `specDeltaDown S t`; since
S and t range over all 3 x 2 combinations, no other (state, input)
mapping occurs. -/
theorem castVote_transition_table (p : Post) (e : String) (t : VoteType) :
    userState (castVotePost p (some e) t).1 e = specNewState (userState p e) t ∧
    (castVotePost p (some e) t).1.upVotes = p.upVotes + specDeltaUp (userState p e) t ∧
    (castVotePost p (some e) t).1.downVotes
      = p.downVotes + specDeltaDown (userState p e) t := by
  cases hf : findVote p.votes (some e) with
  | none =>
    rw [castVotePost_add p (some e) t hf, userState_of_find_none p e hf]
    refine ⟨?_, ?_, ?_⟩
    · rw [userState_addVoteWrite p e t hf, specNewState]
      simp
    · rw [addVoteWrite_upVotes]
      cases t <;> simp [specDeltaUp]
    · rw [addVoteWrite_downVotes]
      cases t <;> simp [specDeltaDown]
  | some v =>
    have hsome : (findVote p.votes (some e)).isSome = true := by rw [hf]; rfl
    rw [userState_of_find p e v hf]
    by_cases hv : v.voteType = t
    · rw [castVotePost_remove p (some e) t v hf hv, hv]
      refine ⟨?_, ?_, ?_⟩
      · rw [userState_removeVoteWrite, specNewState]
        simp
      · rw [removeVoteWrite_upVotes]
        cases t <;> simp [specDeltaUp]
      · rw [removeVoteWrite_downVotes]
        cases t <;> simp [specDeltaDown]
    · have hvo : v.voteType = t.other := by
        cases t <;> cases hvt : v.voteType <;> simp_all [VoteType.other]
      rw [castVotePost_switch p (some e) t v hf hv, hvo]
      refine ⟨?_, ?_, ?_⟩
      · rw [userState_switchVoteWrite p e t v hf, specNewState]
        cases t <;> simp [VoteType.other]
      · rw [switchVoteWrite_upVotes _ _ _ hsome]
        cases t <;> simp [specDeltaUp, VoteType.other]
      · rw [switchVoteWrite_downVotes _ _ _ hsome]
        cases t <;> simp [specDeltaDown, VoteType.other]

/-- Claim C5 (amended): every successful `castVote` response's message is
the human-readable status describing the transition taken: "added" from
state none, "removed" on a repeat of the same kind, "switched" otherwise. -/
theorem response_message_matches_transition (p : Post) (e : String) (t : VoteType) :
    (castVotePost p (some e) t).2 = specMessage (userState p e) t := by
  cases hf : findVote p.votes (some e) with
  | none =>
    rw [castVotePost_add p (some e) t hf, userState_of_find_none p e hf, specMessage]
    simp
  | some v =>
    rw [userState_of_find p e v hf]
    by_cases hv : v.voteType = t
    · rw [castVotePost_remove p (some e) t v hf hv, hv, specMessage]
      simp
    · rw [castVotePost_switch p (some e) t v hf hv, specMessage]
      simp [hv]

/-- A concrete post id accepted by the ObjectId constructor. -/
def demoPostId : String := "0123456789abcdef01234567"

/-- A concrete post with an empty votes array and zero counters. -/
def demoPost : Post := ⟨some [], 0, 0, []⟩

/-- A store holding exactly `demoPost` under `demoPostId`. -/
def demoStore : Store := [(demoPostId, demoPost)]

/-- Claim C5 counterexample: a concrete successful upvote call answers 200
with a body holding only the message field; the new aggregate counters
(upVotes, downVotes) are not part of the result. -/
theorem success_response_contains_no_counters :
    (postUpvoteRoute demoStore demoPostId (some "a")).2.status = 200 ∧
    (postUpvoteRoute demoStore demoPostId (some "a")).2.body
      = [("message", JVal.s "Upvote added")] ∧
    (postUpvoteRoute demoStore demoPostId (some "a")).2.body.lookup "upVotes" = none ∧
    (postUpvoteRoute demoStore demoPostId (some "a")).2.body.lookup "downVotes" = none := by
  decide

/-- A concrete post on which user "a" already has an upvote recorded. -/
def togglePost : Post := ⟨some [⟨some "a", VoteType.up⟩], 1, 0, []⟩

/-- Claim C3 counterexample: from starting per-user state `up`, two
consecutive identical upvotes by the same user do NOT return the post to
per-user state none (the first call removes the vote, the second adds it
back), so the claimed conjunction fails at this input. -/
theorem double_vote_counterexample :
    ¬ (userState (runVotes togglePost [(some "a", VoteType.up), (some "a", VoteType.up)]) "a"
          = none ∧
       (runVotes togglePost [(some "a", VoteType.up), (some "a", VoteType.up)]).upVotes
          = togglePost.upVotes ∧
       (runVotes togglePost [(some "a", VoteType.up), (some "a", VoteType.up)]).downVotes
          = togglePost.downVotes) := by
  decide

/-- Claim C3 (amended): when the user's starting per-user state is none,
two consecutive identical votes by that user return the post to state
none with both counters back at their pre-sequence values. -/
theorem double_vote_toggle_from_none (p : Post) (e : String) (t : VoteType)
    (h : userState p e = none) :
    userState (runVotes p [(some e, t), (some e, t)]) e = none ∧
    (runVotes p [(some e, t), (some e, t)]).upVotes = p.upVotes ∧
    (runVotes p [(some e, t), (some e, t)]).downVotes = p.downVotes := by
  have hf : findVote p.votes (some e) = none := by
    rw [userState] at h
    exact Option.map_eq_none'.mp h
  simp only [runVotes]
  rw [castVotePost_add p (some e) t hf]
  simp only
  have h1 : userState (addVoteWrite t (some e) p) e = some t :=
    userState_addVoteWrite p e t hf
  rw [userState] at h1
  obtain ⟨w, hw, hwt⟩ := Option.map_eq_some'.mp h1
  rw [castVotePost_remove (addVoteWrite t (some e) p) (some e) t w hw hwt]
  simp only
  refine ⟨userState_removeVoteWrite _ e t, ?_, ?_⟩
  · rw [removeVoteWrite_upVotes, addVoteWrite_upVotes]
    cases t <;> simp
  · rw [removeVoteWrite_downVotes, addVoteWrite_downVotes]
    cases t <;> simp

/-- Witness: the amended C3 statement holds at a concrete input. -/
theorem double_vote_toggle_from_none_witness :
    userState (⟨some [], 3, 4, []⟩ : Post) "a" = none ∧
    (userState (runVotes ⟨some [], 3, 4, []⟩
        [(some "a", VoteType.up), (some "a", VoteType.up)]) "a" = none ∧
     (runVotes (⟨some [], 3, 4, []⟩ : Post)
        [(some "a", VoteType.up), (some "a", VoteType.up)]).upVotes
       = (⟨some [], 3, 4, []⟩ : Post).upVotes ∧
     (runVotes (⟨some [], 3, 4, []⟩ : Post)
        [(some "a", VoteType.up), (some "a", VoteType.up)]).downVotes
       = (⟨some [], 3, 4, []⟩ : Post).downVotes) :=
  ⟨by decide, double_vote_toggle_from_none ⟨some [], 3, 4, []⟩ "a" VoteType.up (by decide)⟩

/-- Claim C10: on an existing post whose document has no votes field at
all, `castVote` treats the user's state as none and succeeds: it creates
the votes array with exactly the one new record and increments the
requested counter by one, answering with the "added" message. -/
theorem missing_votes_field_added (p : Post) (e : String) (t : VoteType)
    (h : p.votes = none) :
    (castVotePost p (some e) t).1.votes = some [⟨some e, t⟩] ∧
    (castVotePost p (some e) t).1.upVotes
      = p.upVotes + (if t = VoteType.up then 1 else 0) ∧
    (castVotePost p (some e) t).1.downVotes
      = p.downVotes + (if t = VoteType.down then 1 else 0) ∧
    (castVotePost p (some e) t).2 = addedMsg t := by
  have hf : findVote p.votes (some e) = none := by rw [h]; rfl
  rw [castVotePost_add p (some e) t hf]
  refine ⟨?_, addVoteWrite_upVotes t (some e) p, addVoteWrite_downVotes t (some e) p, rfl⟩
  rw [addVoteWrite_votes, h]
  rfl

/-- Witness: C10 at a concrete post with no votes field. -/
theorem missing_votes_field_added_witness :
    (⟨none, 5, 7, []⟩ : Post).votes = none ∧
    ((castVotePost ⟨none, 5, 7, []⟩ (some "a") VoteType.down).1.votes
        = some [⟨some "a", VoteType.down⟩] ∧
     (castVotePost (⟨none, 5, 7, []⟩ : Post) (some "a") VoteType.down).1.upVotes
        = (⟨none, 5, 7, []⟩ : Post).upVotes
            + (if VoteType.down = VoteType.up then 1 else 0) ∧
     (castVotePost (⟨none, 5, 7, []⟩ : Post) (some "a") VoteType.down).1.downVotes
        = (⟨none, 5, 7, []⟩ : Post).downVotes
            + (if VoteType.down = VoteType.down then 1 else 0) ∧
     (castVotePost (⟨none, 5, 7, []⟩ : Post) (some "a") VoteType.down).2
        = addedMsg VoteType.down) :=
  ⟨rfl, missing_votes_field_added ⟨none, 5, 7, []⟩ "a" VoteType.down rfl⟩

/-- Claim C4: a well-formed postId that references no post makes either
endpoint answer 404 with body message "Post not found", returning the
store untouched, so no vote record is created and no post is modified. -/
theorem unknown_post_returns_404 (s : Store) (id : String) (e : Option String)
    (t : VoteType) (hid : isValidObjectId id = true) (h : findOne s id = none) :
    castVoteRoute t s id e = (s, ⟨404, [("message", JVal.s "Post not found")]⟩) := by
  cases t <;>
    simp [castVoteRoute, postUpvoteRoute, postDownvoteRoute, hid, h]

/-- Witness: C4 at a concrete valid id over the empty store. -/
theorem unknown_post_returns_404_witness :
    isValidObjectId "aaaaaaaaaaaaaaaaaaaaaaaa" = true ∧
    findOne [] "aaaaaaaaaaaaaaaaaaaaaaaa" = none ∧
    castVoteRoute VoteType.up [] "aaaaaaaaaaaaaaaaaaaaaaaa" (some "u")
      = ([], ⟨404, [("message", JVal.s "Post not found")]⟩) :=
  ⟨by decide, rfl,
    unknown_post_returns_404 [] "aaaaaaaaaaaaaaaaaaaaaaaa" (some "u") VoteType.up
      (by decide) rfl⟩

/-- Claim C6, the code evaluated at the failing inputs: a malformed postId
is answered 500 "Internal server error" (the ObjectId throw lands in the
catch block), not 4xx; and a request with userEmail missing is not
rejected at all: it answers 200 and mutates the post, pushing a vote
record with a null email and incrementing upVotes. -/
theorem invalid_input_behaviour :
    (postUpvoteRoute demoStore "xyz" (some "a")).2.status = 500 ∧
    (postUpvoteRoute demoStore "xyz" (some "a")).1 = demoStore ∧
    (postUpvoteRoute demoStore demoPostId none).2.status = 200 ∧
    (postUpvoteRoute demoStore demoPostId none).1
      = [(demoPostId, ⟨some [⟨none, VoteType.up⟩], 1, 0, []⟩)] := by
  decide

/-! ### Counting lemmas for the counter/list invariants -/

theorem userRecCount_eq_zero_of_find_none (p : Post) (y : String)
    (hf : findVote p.votes (some y) = none) : userRecCount p y = 0 := by
  rw [userRecCount, List.countP_eq_zero]
  intro v hv
  cases hpv : p.votes with
  | none => rw [hpv] at hv; simp at hv
  | some l =>
    rw [findVote, hpv] at hf
    simp only [Option.some_bind] at hf
    rw [List.find?_eq_none] at hf
    rw [hpv] at hv
    exact hf v (by simpa using hv)

theorem countType_addVoteWrite (p : Post) (e : Option String) (t t0 : VoteType) :
    countType (addVoteWrite t e p) t0 = countType p t0 + (if t = t0 then 1 else 0) := by
  rw [countType, countType, addVoteWrite_votes]
  simp only [Option.getD_some, List.countP_append]
  congr 1
  cases t <;> cases t0 <;> simp [List.countP_cons]

theorem userRecCount_addVoteWrite (p : Post) (e : Option String) (t : VoteType) (x : String) :
    userRecCount (addVoteWrite t e p) x
      = userRecCount p x + (if jsEq e (some x) then 1 else 0) := by
  rw [userRecCount, userRecCount, addVoteWrite_votes]
  simp only [Option.getD_some, List.countP_append]
  congr 1
  by_cases hj : jsEq e (some x) = true <;> simp [List.countP_cons, hj, bool_eq_false]

theorem exists_list_of_find (p : Post) (y : String) (v : VoteRecord)
    (hf : findVote p.votes (some y) = some v) :
    ∃ l, p.votes = some l ∧ l.find? (fun w => jsEq w.userEmail (some y)) = some v := by
  cases hpv : p.votes with
  | none => rw [findVote, hpv] at hf; simp at hf
  | some l =>
    refine ⟨l, rfl, ?_⟩
    rw [findVote, hpv] at hf
    simpa using hf

theorem countType_removeVoteWrite (p : Post) (y : String) (v : VoteRecord)
    (t t0 : VoteType) (hf : findVote p.votes (some y) = some v)
    (hc : userRecCount p y ≤ 1) :
    countType (removeVoteWrite t (some y) p) t0 + (if v.voteType = t0 then 1 else 0)
      = countType p t0 := by
  obtain ⟨l, hvl, hl⟩ := exists_list_of_find p y v hf
  have hcl : l.countP (fun w => jsEq w.userEmail (some y)) ≤ 1 := by
    rw [userRecCount, hvl] at hc
    simpa using hc
  have hsingle := filter_eq_single l (fun w => jsEq w.userEmail (some y)) v hl hcl
  have hsplit := countP_split l (fun w => w.voteType == t0)
    (fun w => jsEq w.userEmail (some y))
  rw [hsingle] at hsplit
  rw [countType, countType, removeVoteWrite_votes, hvl]
  simp only [Option.map_some', Option.getD_some]
  have hone : List.countP (fun w => w.voteType == t0) [v]
      = (if v.voteType = t0 then 1 else 0) := by
    by_cases hv0 : v.voteType = t0 <;> simp [List.countP_cons, hv0]
  omega

theorem userRecCount_removeVoteWrite_le (p : Post) (e : Option String) (t : VoteType)
    (x : String) (h : userRecCount p x ≤ 1) :
    userRecCount (removeVoteWrite t e p) x ≤ 1 := by
  rw [userRecCount, removeVoteWrite_votes]
  cases hpv : p.votes with
  | none => simp
  | some l =>
    simp only [Option.map_some', Option.getD_some]
    rw [userRecCount, hpv] at h
    simp only [Option.getD_some] at h
    calc (l.filter (fun v => !jsEq v.userEmail e)).countP
            (fun w => jsEq w.userEmail (some x))
        ≤ l.countP (fun w => jsEq w.userEmail (some x)) := by
          rw [List.countP_filter]
          exact List.countP_mono_left (fun a _ ha => by
            rw [Bool.and_eq_true] at ha
            exact ha.1)
      _ ≤ 1 := h

theorem countType_switchVoteWrite (p : Post) (y : String) (v : VoteRecord)
    (t t0 : VoteType) (hf : findVote p.votes (some y) = some v) :
    countType (switchVoteWrite t (some y) p) t0 + (if v.voteType = t0 then 1 else 0)
      = countType p t0 + (if t = t0 then 1 else 0) := by
  obtain ⟨l, hvl, hl⟩ := exists_list_of_find p y v hf
  have hs : (findVote p.votes (some y)).isSome = true := by rw [hf]; rfl
  rw [countType, countType, switchVoteWrite_votes _ _ _ hs, hvl]
  simp only [Option.getD_some]
  have hset := countP_setFirst l (some y) t v (fun w => w.voteType == t0) hl
  have h1 : ((fun w => w.voteType == t0) v = true) ↔ (v.voteType = t0) := by simp
  have h2 : ∀ w : VoteRecord,
      (fun u => u.voteType == t0) ({ w with voteType := t } : VoteRecord)
        = (t == t0) := fun w => rfl
  by_cases hv0 : v.voteType = t0 <;> by_cases ht0 : t = t0 <;>
    simp only [hv0, ht0, if_true, if_false] <;>
    simp [hv0, ht0] at hset <;> omega

theorem userRecCount_switchVoteWrite (p : Post) (y : String) (v : VoteRecord)
    (t : VoteType) (x : String) (hf : findVote p.votes (some y) = some v) :
    userRecCount (switchVoteWrite t (some y) p) x = userRecCount p x := by
  obtain ⟨l, hvl, hl⟩ := exists_list_of_find p y v hf
  have hs : (findVote p.votes (some y)).isSome = true := by rw [hf]; rfl
  rw [userRecCount, userRecCount, switchVoteWrite_votes _ _ _ hs, hvl]
  simp only [Option.getD_some]
  have hset := countP_setFirst l (some y) t v (fun w => jsEq w.userEmail (some x)) hl
  simp only at hset
  omega

theorem findVote_some_email (p : Post) (e : Option String) (v : VoteRecord)
    (hf : findVote p.votes e = some v) : ∃ y, e = some y := by
  cases hpv : p.votes with
  | none => rw [findVote, hpv] at hf; simp at hf
  | some l =>
    rw [findVote, hpv] at hf
    simp only [Option.some_bind] at hf
    obtain ⟨s, _, h2⟩ :=
      jsEq_true_iff.mp (List.find?_some (p := fun w : VoteRecord => jsEq w.userEmail e) hf)
    exact ⟨s, h2⟩

/-- One completed `castVote` call preserves the two counter invariants and
the at-most-one-record-per-user invariant. -/
theorem vote_invariant_step (p : Post) (e : Option String) (t : VoteType)
    (h1 : p.upVotes = (countType p VoteType.up : Int))
    (h2 : p.downVotes = (countType p VoteType.down : Int))
    (h3 : ∀ x : String, userRecCount p x ≤ 1) :
    (castVotePost p e t).1.upVotes = (countType (castVotePost p e t).1 VoteType.up : Int) ∧
    (castVotePost p e t).1.downVotes
      = (countType (castVotePost p e t).1 VoteType.down : Int) ∧
    (∀ x : String, userRecCount (castVotePost p e t).1 x ≤ 1) := by
  cases hf : findVote p.votes e with
  | none =>
    rw [castVotePost_add p e t hf]
    refine ⟨?_, ?_, ?_⟩
    · rw [addVoteWrite_upVotes, countType_addVoteWrite p e t VoteType.up]
      cases t <;> simp [h1]
    · rw [addVoteWrite_downVotes, countType_addVoteWrite p e t VoteType.down]
      cases t <;> simp [h2]
    · intro x
      rw [userRecCount_addVoteWrite]
      by_cases hj : jsEq e (some x) = true
      · obtain ⟨s, he, hx⟩ := jsEq_true_iff.mp hj
        injection hx with hx
        subst hx
        rw [if_pos hj, userRecCount_eq_zero_of_find_none p x (by rw [← he]; exact hf)]
      · rw [if_neg hj]
        have := h3 x
        omega
  | some v =>
    obtain ⟨y, rfl⟩ := findVote_some_email p e v hf
    by_cases hv : v.voteType = t
    · rw [castVotePost_remove p (some y) t v hf hv]
      refine ⟨?_, ?_, ?_⟩
      · have hct := countType_removeVoteWrite p y v t VoteType.up hf (h3 y)
        rw [hv] at hct
        rw [removeVoteWrite_upVotes]
        cases t <;> simp at hct ⊢ <;> omega
      · have hct := countType_removeVoteWrite p y v t VoteType.down hf (h3 y)
        rw [hv] at hct
        rw [removeVoteWrite_downVotes]
        cases t <;> simp at hct ⊢ <;> omega
      · intro x
        exact userRecCount_removeVoteWrite_le p (some y) t x (h3 x)
    · have hvo : v.voteType = t.other := by
        cases t <;> cases hvt : v.voteType <;> simp_all [VoteType.other]
      have hsome : (findVote p.votes (some y)).isSome = true := by rw [hf]; rfl
      rw [castVotePost_switch p (some y) t v hf hv]
      refine ⟨?_, ?_, ?_⟩
      · have hct := countType_switchVoteWrite p y v t VoteType.up hf
        rw [hvo] at hct
        rw [switchVoteWrite_upVotes _ _ _ hsome]
        cases t <;> simp [VoteType.other] at hct ⊢ <;> omega
      · have hct := countType_switchVoteWrite p y v t VoteType.down hf
        rw [hvo] at hct
        rw [switchVoteWrite_downVotes _ _ _ hsome]
        cases t <;> simp [VoteType.other] at hct ⊢ <;> omega
      · intro x
        rw [userRecCount_switchVoteWrite p y v t x hf]
        exact h3 x

/-- The invariants of `vote_invariant_step`, carried over any sequence of
completed calls. -/
theorem vote_invariant_run (calls : List (Option String × VoteType)) (p : Post)
    (h1 : p.upVotes = (countType p VoteType.up : Int))
    (h2 : p.downVotes = (countType p VoteType.down : Int))
    (h3 : ∀ x : String, userRecCount p x ≤ 1) :
    (runVotes p calls).upVotes = (countType (runVotes p calls) VoteType.up : Int) ∧
    (runVotes p calls).downVotes = (countType (runVotes p calls) VoteType.down : Int) ∧
    (∀ x : String, userRecCount (runVotes p calls) x ≤ 1) := by
  induction calls generalizing p with
  | nil => exact ⟨h1, h2, h3⟩
  | cons c rest ih =>
    rw [runVotes]
    obtain ⟨g1, g2, g3⟩ := vote_invariant_step p c.1 c.2 h1 h2 h3
    exact ih _ g1 g2 g3

/-- Claim C2: after any sequence of completed castVote calls starting from
a post with empty votes (the field absent, or present and empty) and both
counters zero, upVotes equals the number of up vote records, downVotes the
number of down records, and both counters are non-negative. -/
theorem counters_match_vote_counts (extra : List (String × Int))
    (calls : List (Option String × VoteType)) :
    ((runVotes ⟨none, 0, 0, extra⟩ calls).upVotes
        = (countType (runVotes ⟨none, 0, 0, extra⟩ calls) VoteType.up : Int) ∧
     (runVotes ⟨none, 0, 0, extra⟩ calls).downVotes
        = (countType (runVotes ⟨none, 0, 0, extra⟩ calls) VoteType.down : Int) ∧
     0 ≤ (runVotes ⟨none, 0, 0, extra⟩ calls).upVotes ∧
     0 ≤ (runVotes ⟨none, 0, 0, extra⟩ calls).downVotes) ∧
    ((runVotes ⟨some [], 0, 0, extra⟩ calls).upVotes
        = (countType (runVotes ⟨some [], 0, 0, extra⟩ calls) VoteType.up : Int) ∧
     (runVotes ⟨some [], 0, 0, extra⟩ calls).downVotes
        = (countType (runVotes ⟨some [], 0, 0, extra⟩ calls) VoteType.down : Int) ∧
     0 ≤ (runVotes ⟨some [], 0, 0, extra⟩ calls).upVotes ∧
     0 ≤ (runVotes ⟨some [], 0, 0, extra⟩ calls).downVotes) := by
  constructor
  · obtain ⟨g1, g2, -⟩ := vote_invariant_run calls ⟨none, 0, 0, extra⟩
      (by simp [countType]) (by simp [countType]) (fun x => by simp [userRecCount])
    refine ⟨g1, g2, ?_, ?_⟩
    · rw [g1]; exact Int.natCast_nonneg _
    · rw [g2]; exact Int.natCast_nonneg _
  · obtain ⟨g1, g2, -⟩ := vote_invariant_run calls ⟨some [], 0, 0, extra⟩
      (by simp [countType]) (by simp [countType]) (fun x => by simp [userRecCount])
    refine ⟨g1, g2, ?_, ?_⟩
    · rw [g1]; exact Int.natCast_nonneg _
    · rw [g2]; exact Int.natCast_nonneg _

/-- One completed call preserves the per-user record bound on its own. -/
theorem userRecCount_step (p : Post) (e : Option String) (t : VoteType) (x : String)
    (h : userRecCount p x ≤ 1) : userRecCount (castVotePost p e t).1 x ≤ 1 := by
  cases hf : findVote p.votes e with
  | none =>
    rw [castVotePost_add p e t hf, userRecCount_addVoteWrite]
    by_cases hj : jsEq e (some x) = true
    · obtain ⟨s, he, hx⟩ := jsEq_true_iff.mp hj
      injection hx with hx
      subst hx
      rw [if_pos hj, userRecCount_eq_zero_of_find_none p x (by rw [← he]; exact hf)]
    · rw [if_neg hj]
      omega
  | some v =>
    obtain ⟨y, rfl⟩ := findVote_some_email p e v hf
    by_cases hv : v.voteType = t
    · rw [castVotePost_remove p (some y) t v hf hv]
      exact userRecCount_removeVoteWrite_le p (some y) t x h
    · rw [castVotePost_switch p (some y) t v hf hv]
      rw [userRecCount_switchVoteWrite p y v t x hf]
      exact h

/-- Claim C7: for every post and user, as long as the user starts with at
most one live vote record on the post, any sequence of completed castVote
calls keeps it that way: a record is created on the first vote, mutated in
place on a switch, removed on a repeat, and never duplicated. -/
theorem at_most_one_vote_record (p : Post) (e : String)
    (h : userRecCount p e ≤ 1) (calls : List (Option String × VoteType)) :
    userRecCount (runVotes p calls) e ≤ 1 := by
  induction calls generalizing p with
  | nil => exact h
  | cons c rest ih =>
    rw [runVotes]
    exact ih _ (userRecCount_step p c.1 c.2 e h)

/-- Witness: C7 at a concrete post and call sequence. -/
theorem at_most_one_vote_record_witness :
    userRecCount ⟨some [], 2, 2, []⟩ "b" ≤ 1 ∧
    userRecCount (runVotes ⟨some [], 2, 2, []⟩
      [(some "b", VoteType.up), (some "b", VoteType.down), (some "c", VoteType.up)]) "b"
        ≤ 1 :=
  ⟨by decide, at_most_one_vote_record ⟨some [], 2, 2, []⟩ "b" (by decide) _⟩

/-! ### Popularity ordering -/

theorem removeVoteWrite_extra (t : VoteType) (e : Option String) (p : Post) :
    (removeVoteWrite t e p).extra = p.extra := by
  rw [removeVoteWrite, incCounter_extra]

theorem addVoteWrite_extra (t : VoteType) (e : Option String) (p : Post) :
    (addVoteWrite t e p).extra = p.extra := by
  rw [addVoteWrite, incCounter_extra]

theorem castVotePost_extra (p : Post) (e : Option String) (t : VoteType) :
    (castVotePost p e t).1.extra = p.extra := by
  cases hf : findVote p.votes e with
  | none => rw [castVotePost_add p e t hf]; exact addVoteWrite_extra t e p
  | some v =>
    by_cases hv : v.voteType = t
    · rw [castVotePost_remove p e t v hf hv]; exact removeVoteWrite_extra t e p
    · rw [castVotePost_switch p e t v hf hv]; exact switchVoteWrite_extra t e p

/-- Claim C8: the popularity endpoint leaves the store untouched, returns
a permutation of all stored posts, sorted so that votesCount never
increases along the output, with each votesCount recomputed at read time
as upVotes - downVotes of the stored counters; and no castVote write
touches any document field other than votes and the two counters, so no
voteScore field is ever stored. -/
theorem popularity_sort_correct (s : Store) :
    (sortByPopularityRoute s).1 = s ∧
    ((sortByPopularityRoute s).2.map (fun r => r.post)).Perm (s.map (fun kv => kv.2)) ∧
    (sortByPopularityRoute s).2.Pairwise (fun a b => b.votesCount ≤ a.votesCount) ∧
    (∀ r ∈ (sortByPopularityRoute s).2,
        r.votesCount = r.post.upVotes - r.post.downVotes) ∧
    (∀ (p : Post) (e : Option String) (t : VoteType),
        (castVotePost p e t).1.extra = p.extra) := by
  refine ⟨rfl, ?_, ?_, ?_, fun p e t => castVotePost_extra p e t⟩
  · have hp := List.mergeSort_perm (s.map (fun kv => addVotesCount kv.2))
      (fun a b => decide (b.votesCount ≤ a.votesCount))
    have hmap := hp.map (fun r => r.post)
    rw [sortByPopularityRoute]
    refine hmap.trans ?_
    rw [List.map_map]
    exact List.Perm.of_eq (by simp [addVotesCount, Function.comp])
  · have hs : ((s.map (fun kv => addVotesCount kv.2)).mergeSort
        (fun a b => decide (b.votesCount ≤ a.votesCount))).Pairwise
          (fun a b => decide (b.votesCount ≤ a.votesCount) = true) :=
      List.sorted_mergeSort
        (fun a b c hab hbc => by
          simp only [decide_eq_true_eq] at hab hbc ⊢
          omega)
        (fun a b => by
          simp only [Bool.or_eq_true, decide_eq_true_eq]
          omega)
        (s.map (fun kv => addVotesCount kv.2))
    rw [sortByPopularityRoute]
    exact hs.imp (fun h => by simpa using h)
  · intro r hr
    rw [sortByPopularityRoute] at hr
    simp only [List.mem_mergeSort] at hr
    obtain ⟨kv, _, rfl⟩ := List.mem_map.mp hr
    rfl

/-! ### Concurrency model: each handler is a read (choosing its branch
from a snapshot) followed by one atomic update; reads do not mutate, so
every interleaving of two calls is one of four executions. -/

/-- The branch a handler commits to from the snapshot it read. -/
inductive Decision where
  | removeD
  | switchD
  | addD
deriving DecidableEq, Repr

/-- The branch chosen from snapshot `p` by a `castVote` for kind `t`. -/
def voteDecision (p : Post) (e : Option String) (t : VoteType) : Decision :=
  match findVote p.votes e with
  | some v => if v.voteType = t then .removeD else .switchD
  | none => .addD

/-- The atomic `updateOne` a handler issues, applied to the current
document state (which may differ from the snapshot it read). -/
def applyVoteWrite (t : VoteType) (e : Option String) : Decision → Post → Post
  | .removeD, p => removeVoteWrite t e p
  | .switchD, p => switchVoteWrite t e p
  | .addD, p => addVoteWrite t e p

/-- Sequential `castVote` is the read phase immediately followed by the
write phase against the same state. -/
theorem castVotePost_fst_eq (p : Post) (e : Option String) (t : VoteType) :
    (castVotePost p e t).1 = applyVoteWrite t e (voteDecision p e t) p := by
  cases hf : findVote p.votes e with
  | none =>
    rw [castVotePost_add p e t hf]
    simp [voteDecision, hf, applyVoteWrite]
  | some v =>
    by_cases hv : v.voteType = t
    · rw [castVotePost_remove p e t v hf hv]
      simp [voteDecision, hf, hv, applyVoteWrite]
    · rw [castVotePost_switch p e t v hf hv]
      simp [voteDecision, hf, hv, applyVoteWrite]

theorem jsEq_ne_some (e1 : Option String) (e2 : String) (hne : e1 ≠ some e2) :
    jsEq e1 (some e2) = false := by
  cases e1 with
  | none => rfl
  | some y =>
    simp only [jsEq, beq_eq_false_iff_ne, ne_eq]
    intro hc
    exact hne (by rw [hc])

/-- A write on behalf of one user never changes what a different user's
`find` sees. -/
theorem findVote_applyVoteWrite_other (p : Post) (t : VoteType) (d : Decision)
    (e1 : Option String) (e2 : String) (hne : e1 ≠ some e2) :
    findVote (applyVoteWrite t e1 d p).votes (some e2) = findVote p.votes (some e2) := by
  cases d with
  | removeD =>
    show findVote (removeVoteWrite t e1 p).votes (some e2) = _
    rw [removeVoteWrite_votes]
    cases p.votes with
    | none => rfl
    | some l =>
      simp only [Option.map_some', findVote, Option.some_bind]
      exact find?_filter_keep l _ _ (fun a ha => by
        by_cases h1 : jsEq a.userEmail e1 = true
        · exact absurd ha (by simp [jsEq_cross hne h1])
        · simp [bool_eq_false h1])
  | switchD =>
    show findVote (switchVoteWrite t e1 p).votes (some e2) = _
    rw [switchVoteWrite]
    by_cases hg : (p.votes.getD []).any (fun v => jsEq v.userEmail e1) = true
    · rw [if_pos hg]
      simp only [incCounter_votes]
      cases hpv : p.votes with
      | none => rw [hpv] at hg; simp at hg
      | some l =>
        simp only [findVote, Option.getD_some, Option.some_bind]
        exact find?_setFirst_other l e1 e2 t hne
    · rw [if_neg hg]
  | addD =>
    show findVote (addVoteWrite t e1 p).votes (some e2) = _
    rw [addVoteWrite_votes]
    have hne2 : jsEq e1 (some e2) = false := jsEq_ne_some e1 e2 hne
    cases hpv : p.votes with
    | none => simp [findVote, List.find?, hne2]
    | some l =>
      simp only [findVote, Option.getD_some, Option.some_bind]
      exact find?_append_single_neg l _ _ (by simpa using hne2)

/-- Hence a different user's decision is unchanged by the write. -/
theorem voteDecision_applyVoteWrite_other (p : Post) (t1 t2 : VoteType) (d : Decision)
    (e1 : Option String) (e2 : String) (hne : e1 ≠ some e2) :
    voteDecision (applyVoteWrite t1 e1 d p) (some e2) t2
      = voteDecision p (some e2) t2 := by
  simp only [voteDecision, findVote_applyVoteWrite_other p t1 d e1 e2 hne]

/-- Counter delta of each write kind (valid whenever the write applies). -/
def deltaUpW : Decision → VoteType → Int
  | .removeD, t => if t = VoteType.up then -1 else 0
  | .switchD, t => if t = VoteType.up then 1 else -1
  | .addD, t => if t = VoteType.up then 1 else 0

/-- Counter delta of each write kind on `downVotes`. -/
def deltaDownW : Decision → VoteType → Int
  | .removeD, t => if t = VoteType.down then -1 else 0
  | .switchD, t => if t = VoteType.down then 1 else -1
  | .addD, t => if t = VoteType.down then 1 else 0

theorem voteDecision_switch_isSome (p : Post) (e : Option String) (t : VoteType)
    (h : voteDecision p e t = Decision.switchD) :
    (findVote p.votes e).isSome = true := by
  cases hf : findVote p.votes e with
  | none => simp [voteDecision, hf] at h
  | some v => rfl

theorem applyVoteWrite_upVotes (p : Post) (e : Option String) (t : VoteType) (d : Decision)
    (hg : d = Decision.switchD → (findVote p.votes e).isSome = true) :
    (applyVoteWrite t e d p).upVotes = p.upVotes + deltaUpW d t := by
  cases d with
  | removeD => exact removeVoteWrite_upVotes t e p
  | switchD => exact switchVoteWrite_upVotes t e p (hg rfl)
  | addD => exact addVoteWrite_upVotes t e p

theorem applyVoteWrite_downVotes (p : Post) (e : Option String) (t : VoteType) (d : Decision)
    (hg : d = Decision.switchD → (findVote p.votes e).isSome = true) :
    (applyVoteWrite t e d p).downVotes = p.downVotes + deltaDownW d t := by
  cases d with
  | removeD => exact removeVoteWrite_downVotes t e p
  | switchD => exact switchVoteWrite_downVotes t e p (hg rfl)
  | addD => exact addVoteWrite_downVotes t e p

theorem deltaW_eq_specUp (p : Post) (e : String) (t : VoteType) :
    deltaUpW (voteDecision p (some e) t) t = specDeltaUp (userState p e) t := by
  cases hf : findVote p.votes (some e) with
  | none =>
    rw [userState_of_find_none p e hf]
    cases t <;> simp [voteDecision, hf, deltaUpW, specDeltaUp]
  | some v =>
    rw [userState_of_find p e v hf]
    by_cases hv : v.voteType = t
    · rw [hv]
      cases t <;> simp [voteDecision, hf, hv, deltaUpW, specDeltaUp]
    · have hvo : v.voteType = t.other := by
        cases t <;> cases hvt : v.voteType <;> simp_all [VoteType.other]
      rw [hvo]
      cases t <;> simp [voteDecision, hf, hv, deltaUpW, specDeltaUp, VoteType.other]

theorem deltaW_eq_specDown (p : Post) (e : String) (t : VoteType) :
    deltaDownW (voteDecision p (some e) t) t = specDeltaDown (userState p e) t := by
  cases hf : findVote p.votes (some e) with
  | none =>
    rw [userState_of_find_none p e hf]
    cases t <;> simp [voteDecision, hf, deltaDownW, specDeltaDown]
  | some v =>
    rw [userState_of_find p e v hf]
    by_cases hv : v.voteType = t
    · rw [hv]
      cases t <;> simp [voteDecision, hf, hv, deltaDownW, specDeltaDown]
    · have hvo : v.voteType = t.other := by
        cases t <;> cases hvt : v.voteType <;> simp_all [VoteType.other]
      rw [hvo]
      cases t <;> simp [voteDecision, hf, hv, deltaDownW, specDeltaDown, VoteType.other]

theorem twoWrites_upVotes (p0 : Post) (ea eb : String) (ta tb : VoteType)
    (hne : ea ≠ eb) :
    (applyVoteWrite tb (some eb) (voteDecision p0 (some eb) tb)
        (applyVoteWrite ta (some ea) (voteDecision p0 (some ea) ta) p0)).upVotes
      = p0.upVotes + specDeltaUp (userState p0 ea) ta
          + specDeltaUp (userState p0 eb) tb := by
  have hga : voteDecision p0 (some ea) ta = Decision.switchD →
      (findVote p0.votes (some ea)).isSome = true :=
    voteDecision_switch_isSome p0 (some ea) ta
  have hgb : voteDecision p0 (some eb) tb = Decision.switchD →
      (findVote (applyVoteWrite ta (some ea) (voteDecision p0 (some ea) ta) p0).votes
          (some eb)).isSome = true := by
    intro h
    rw [findVote_applyVoteWrite_other p0 ta (voteDecision p0 (some ea) ta) (some ea) eb
      (fun hc => hne (Option.some.inj hc))]
    exact voteDecision_switch_isSome p0 (some eb) tb h
  rw [applyVoteWrite_upVotes _ (some eb) tb _ hgb,
    applyVoteWrite_upVotes _ (some ea) ta _ hga,
    deltaW_eq_specUp p0 ea ta, deltaW_eq_specUp p0 eb tb]

theorem twoWrites_downVotes (p0 : Post) (ea eb : String) (ta tb : VoteType)
    (hne : ea ≠ eb) :
    (applyVoteWrite tb (some eb) (voteDecision p0 (some eb) tb)
        (applyVoteWrite ta (some ea) (voteDecision p0 (some ea) ta) p0)).downVotes
      = p0.downVotes + specDeltaDown (userState p0 ea) ta
          + specDeltaDown (userState p0 eb) tb := by
  have hga : voteDecision p0 (some ea) ta = Decision.switchD →
      (findVote p0.votes (some ea)).isSome = true :=
    voteDecision_switch_isSome p0 (some ea) ta
  have hgb : voteDecision p0 (some eb) tb = Decision.switchD →
      (findVote (applyVoteWrite ta (some ea) (voteDecision p0 (some ea) ta) p0).votes
          (some eb)).isSome = true := by
    intro h
    rw [findVote_applyVoteWrite_other p0 ta (voteDecision p0 (some ea) ta) (some ea) eb
      (fun hc => hne (Option.some.inj hc))]
    exact voteDecision_switch_isSome p0 (some eb) tb h
  rw [applyVoteWrite_downVotes _ (some eb) tb _ hgb,
    applyVoteWrite_downVotes _ (some ea) ta _ hga,
    deltaW_eq_specDown p0 ea ta, deltaW_eq_specDown p0 eb tb]

/-- A fully sequential pair of calls by distinct users equals the
read-read-write-write execution with the same write order. -/
theorem seq_eq_twoWrites (p0 : Post) (ea eb : String) (ta tb : VoteType)
    (hne : ea ≠ eb) :
    (castVotePost (castVotePost p0 (some ea) ta).1 (some eb) tb).1
      = applyVoteWrite tb (some eb) (voteDecision p0 (some eb) tb)
          (applyVoteWrite ta (some ea) (voteDecision p0 (some ea) ta) p0) := by
  rw [castVotePost_fst_eq, castVotePost_fst_eq,
    voteDecision_applyVoteWrite_other p0 ta tb (voteDecision p0 (some ea) ta) (some ea) eb
      (fun hc => hne (Option.some.inj hc))]

/-- The interleavings of two read-then-write calls: the two serial orders
and, since reads do not mutate, the two read-read-write-write orders. -/
inductive Sched where
  | firstThenSecond
  | secondThenFirst
  | bothReadThenFirstWritesFirst
  | bothReadThenSecondWritesFirst
deriving DecidableEq, Repr

/-- Execute two `castVote` calls under one of the four interleavings. -/
def execTwo (p0 : Post) (e1 : Option String) (t1 : VoteType)
    (e2 : Option String) (t2 : VoteType) : Sched → Post
  | .firstThenSecond => (castVotePost (castVotePost p0 e1 t1).1 e2 t2).1
  | .secondThenFirst => (castVotePost (castVotePost p0 e2 t2).1 e1 t1).1
  | .bothReadThenFirstWritesFirst =>
      applyVoteWrite t2 e2 (voteDecision p0 e2 t2)
        (applyVoteWrite t1 e1 (voteDecision p0 e1 t1) p0)
  | .bothReadThenSecondWritesFirst =>
      applyVoteWrite t1 e1 (voteDecision p0 e1 t1)
        (applyVoteWrite t2 e2 (voteDecision p0 e2 t2) p0)

/-- Claim C9: two castVote calls by distinct users on the same post, under
any interleaving of their read and write phases, leave the counters at the
initial values plus the sum of the two transitions' deltas from the
initial state. -/
theorem concurrent_distinct_users (p0 : Post) (e1 e2 : String) (t1 t2 : VoteType)
    (hne : e1 ≠ e2) (sch : Sched) :
    (execTwo p0 (some e1) t1 (some e2) t2 sch).upVotes
      = p0.upVotes + specDeltaUp (userState p0 e1) t1
          + specDeltaUp (userState p0 e2) t2 ∧
    (execTwo p0 (some e1) t1 (some e2) t2 sch).downVotes
      = p0.downVotes + specDeltaDown (userState p0 e1) t1
          + specDeltaDown (userState p0 e2) t2 := by
  have hne2 : e2 ≠ e1 := fun hc => hne hc.symm
  cases sch with
  | firstThenSecond =>
    simp only [execTwo]
    rw [seq_eq_twoWrites p0 e1 e2 t1 t2 hne]
    exact ⟨twoWrites_upVotes p0 e1 e2 t1 t2 hne, twoWrites_downVotes p0 e1 e2 t1 t2 hne⟩
  | secondThenFirst =>
    simp only [execTwo]
    rw [seq_eq_twoWrites p0 e2 e1 t2 t1 hne2]
    refine ⟨?_, ?_⟩
    · rw [twoWrites_upVotes p0 e2 e1 t2 t1 hne2]
      ring
    · rw [twoWrites_downVotes p0 e2 e1 t2 t1 hne2]
      ring
  | bothReadThenFirstWritesFirst =>
    simp only [execTwo]
    exact ⟨twoWrites_upVotes p0 e1 e2 t1 t2 hne, twoWrites_downVotes p0 e1 e2 t1 t2 hne⟩
  | bothReadThenSecondWritesFirst =>
    simp only [execTwo]
    refine ⟨?_, ?_⟩
    · rw [twoWrites_upVotes p0 e2 e1 t2 t1 hne2]
      ring
    · rw [twoWrites_downVotes p0 e2 e1 t2 t1 hne2]
      ring

/-- Witness: C9 at a concrete post, two users, one interleaving. -/
theorem concurrent_distinct_users_witness :
    ("a" : String) ≠ "b" ∧
    ((execTwo ⟨some [], 0, 0, []⟩ (some "a") VoteType.up (some "b") VoteType.up
        Sched.bothReadThenFirstWritesFirst).upVotes
      = (⟨some [], 0, 0, []⟩ : Post).upVotes
          + specDeltaUp (userState ⟨some [], 0, 0, []⟩ "a") VoteType.up
          + specDeltaUp (userState ⟨some [], 0, 0, []⟩ "b") VoteType.up ∧
     (execTwo ⟨some [], 0, 0, []⟩ (some "a") VoteType.up (some "b") VoteType.up
        Sched.bothReadThenFirstWritesFirst).downVotes
      = (⟨some [], 0, 0, []⟩ : Post).downVotes
          + specDeltaDown (userState ⟨some [], 0, 0, []⟩ "a") VoteType.up
          + specDeltaDown (userState ⟨some [], 0, 0, []⟩ "b") VoteType.up) :=
  ⟨by decide,
    concurrent_distinct_users ⟨some [], 0, 0, []⟩ "a" "b" VoteType.up VoteType.up
      (by decide) Sched.bothReadThenFirstWritesFirst⟩

end ForumHub
